import Mathlib

/-!
Verification of the phonograph streaming-audio library.

This file gives a shallow embedding of the parts of the code that the
claims talk about, translated directly from the TypeScript source:

* the `Chunk` lifecycle (`Chunk.ts` and the later `Chunk` variant):
  decode retry search, `attach`, `_ready` (readiness + stitching),
  `createSource`/`createBuffer`;
* the segmenter inside `Clip.buffer` (both `Clip` variants):
  `drainBuffer`, the per-byte `ondata` loop and `onload`;
* the buffering heuristic `checkCanplaythrough`;
* the `duration` getter of `Clip`;
* the crossfade bookkeeping of `advance` inside `_play`;
* the progress fraction computed by `FetchLoader.load`.

Byte buffers are `List Nat`, time and durations are `ℚ`, machine-level
JavaScript divisions that can produce NaN and infinities are modelled by
an explicit `JSNumber` type.
-/

/-- Fixed segmentation threshold from `Clip.ts`: `const CHUNK_SIZE = 64 * 1024`. -/
def CHUNK_SIZE : Nat := 64 * 1024

/-- Crossfade overlap from `Clip.ts`: `const OVERLAP = 0.2` (seconds). -/
def OVERLAP : ℚ := 1 / 5

/-! ## Chunk state (`Chunk.ts`)

A `Chunk` as the claims see it: raw bytes, the first-usable-byte offset
maintained by the decode retry loop, the (optional) decoded duration, the
attachment flag and successor link set by `attach`, the readiness flag and
the stitched `extended` buffer produced by `_ready`.  The successor is
represented by its raw bytes (the only part of it `_ready` reads);
`attached = true` with `next = none` models `attach(null)`. -/

structure ChunkState where
  raw : List Nat
  firstByte : Nat
  duration : Option ℚ
  attached : Bool
  next : Option (List Nat)
  ready : Bool
  extended : Option (List Nat)
  deriving DecidableEq, Repr

/-- The successor branch of `Chunk._ready`: a `Uint8Array` of
`raw.length + (next.raw.length >> 1)` zero-initialised bytes is allocated,
then `raw[firstByte..]` and the first `next.raw.length >> 1` bytes of the
successor are written consecutively from position 0; slots that are never
written keep the zero fill. -/
def extendedWithNext (raw : List Nat) (firstByte : Nat) (nraw : List Nat) : List Nat :=
  let nextLen := nraw.length / 2
  let base := List.replicate (raw.length + nextLen) 0
  let payload := raw.drop firstByte ++ nraw.take nextLen
  payload ++ base.drop payload.length

/-- The `extended` buffer computed by `Chunk._ready` once the chunk turns
ready: the stitched buffer when a successor exists, otherwise
`slice(raw, firstByte, raw.length)` (which is `raw` itself when
`firstByte = 0`). -/
def chunkExtended (raw : List Nat) (firstByte : Nat) (next : Option (List Nat)) : List Nat :=
  match next with
  | some nraw => extendedWithNext raw firstByte nraw
  | none => raw.drop firstByte

/-- `Chunk._ready`: if already ready do nothing; otherwise, when the chunk
is attached and its duration is known, set `ready` and build `extended`. -/
def readyStep (s : ChunkState) : ChunkState :=
  if s.ready = true then s
  else if s.attached = true ∧ s.duration.isSome = true then
    { s with ready := true, extended := some (chunkExtended s.raw s.firstByte s.next) }
  else s

/-- The operations that mutate a `Chunk` after construction: `attach`
(with a successor's raw bytes, or with none for `attach(null)`), the
decode completion that stores the computed duration, and the retry loop
advancing `_firstByte`.  `attach` and the decode completion both end by
calling `_ready`. -/
inductive ChunkOp where
  | attach (next : Option (List Nat))
  | setDuration (d : ℚ)
  | advanceFirstByte
  deriving Repr

/-- Apply one `ChunkOp`, mirroring `Chunk.attach` and the decode callback. -/
def applyOp (s : ChunkState) : ChunkOp → ChunkState
  | ChunkOp.attach n => readyStep { s with next := n, attached := true }
  | ChunkOp.setDuration d => readyStep { s with duration := some d }
  | ChunkOp.advanceFirstByte => { s with firstByte := s.firstByte + 1 }

/-- A freshly constructed `Chunk` (constructor of `Chunk.ts`). -/
def initChunk (raw : List Nat) : ChunkState :=
  { raw := raw, firstByte := 0, duration := none, attached := false,
    next := none, ready := false, extended := none }

/-- A chunk after a sequence of operations from construction. -/
def runChunk (raw : List Nat) (ops : List ChunkOp) : ChunkState :=
  ops.foldl applyOp (initChunk raw)

/-- `slice(buffer, start, end)` on byte arrays (`utils/buffer`). -/
def sliceList (l : List Nat) (a b : Nat) : List Nat := (l.take b).drop a

/-- The error message thrown by `createSource`/`createBuffer`. -/
def notReadyMsg : String := "Something went wrong! Chunk was not ready in time for playback"

/-- `Chunk.createSource` / `createBuffer`: throw when the chunk is not
ready, otherwise submit `slice(extended, 0, extended.length)` for
decoding.  The returned value is the byte buffer submitted to
`decodeAudioData`. -/
def createSource (c : ChunkState) : Except String (List Nat) :=
  if c.ready = false then
    Except.error notReadyMsg
  else
    Except.ok (sliceList (c.extended.getD []) 0 (c.extended.getD []).length)

/-! ## Segmenter (`Clip.buffer` in both Clip variants) -/

/-- Record of the `attach` calls a chunk has received so far. -/
inductive AttachState where
  | unattached
  | toSuccessor
  | toNull
  deriving DecidableEq, Repr

/-- A chunk as the segmenter sees it: its raw bytes and its attachment. -/
structure ChunkRec where
  raw : List Nat
  attached : AttachState
  deriving DecidableEq, Repr

/-- The mutable state of `Clip.buffer`'s closure: the chunk list, the
accumulation buffer (`tempBuffer[0..p)`) and `processedBytes`. -/
structure SegState where
  chunks : List ChunkRec
  acc : List Nat
  processedBytes : Nat
  deriving DecidableEq, Repr

/-- `lastChunk.attach(chunk)`: mark the last chunk as attached to a
successor. -/
def attachLast : List ChunkRec → List ChunkRec
  | [] => []
  | [c] => [{ c with attached := AttachState.toSuccessor }]
  | c :: rest => c :: attachLast rest

/-- `lastChunk.attach(null)`: mark the last chunk as attached to no
successor. -/
def attachNullLast : List ChunkRec → List ChunkRec
  | [] => []
  | [c] => [{ c with attached := AttachState.toNull }]
  | c :: rest => c :: attachNullLast rest

/-- `drainBuffer` from `Clip.buffer`: slice the accumulated bytes (with the
32-byte header strip on the very first chunk), attach the previous last
chunk to the new chunk, push the new chunk, account the processed bytes and
reset the accumulation pointer. -/
def drainBuffer (s : SegState) : SegState :=
  let firstByte := if s.chunks.isEmpty then 32 else 0
  { chunks := attachLast s.chunks ++ [⟨s.acc.drop firstByte, AttachState.unattached⟩],
    acc := [],
    processedBytes := s.processedBytes + s.acc.length }

/-- One iteration of the byte loop in `ondata` (first `Clip` variant):
`if (p > CHUNK_SIZE + 4 && adapter.validateChunk(uint8Array, i)) drainBuffer();`
followed by `tempBuffer[p++] = uint8Array[i]`.  `valid` is the value of
`validateChunk` at the current position, `b` the incoming byte. -/
def ondataStep (valid : Bool) (b : Nat) (s : SegState) : SegState :=
  let s' := if CHUNK_SIZE + 4 < s.acc.length ∧ valid = true then drainBuffer s else s
  { s' with acc := s'.acc ++ [b] }

/-- `ondata` on one delivered piece: run the byte loop over the piece,
asking the adapter about each position of the piece. -/
def ondata (validate : List Nat → Nat → Bool) (piece : List Nat) (s : SegState) : SegState :=
  piece.enum.foldl (fun t ib => ondataStep (validate piece ib.1) ib.2 t) s

/-- `onload`: if bytes remain in the accumulator, drain them as a final
chunk and attach that chunk to no successor. -/
def onload (s : SegState) : SegState :=
  if s.acc.length ≠ 0 then
    let s' := drainBuffer s
    { s' with chunks := attachNullLast s'.chunks }
  else s

/-- The segmenter state at the start of a load. -/
def initSeg : SegState := ⟨[], [], 0⟩

/-- A full load: every delivered piece through `ondata`, then `onload`. -/
def runLoad (validate : List Nat → Nat → Bool) (pieces : List (List Nat)) : SegState :=
  onload (pieces.foldl (fun s piece => ondata validate piece s) initSeg)

/-- Segmenter state of the second `Clip` variant, which additionally
tracks `nextFrameStartBytes`, the predicted stream position of the next
frame start. -/
structure Seg2State where
  seg : SegState
  nextFrameStartBytes : Nat
  deriving DecidableEq, Repr

/-- One iteration of the byte loop in `ondata` (second `Clip` variant):
when the current stream position has reached `nextFrameStartBytes` and the
adapter validates, the predicted next frame start is advanced by the frame
length (`frameLen` models `getChunkLength(...) ?? 0`), and the buffer is
drained only if additionally `p > CHUNK_SIZE + 4`. -/
def ondataStep2 (valid : Bool) (frameLen : Nat) (b : Nat) (s : Seg2State) : Seg2State :=
  let s₁ :=
    if s.nextFrameStartBytes ≤ s.seg.acc.length + s.seg.processedBytes ∧ valid = true then
      let s' : Seg2State := ⟨s.seg, s.seg.acc.length + s.seg.processedBytes + frameLen⟩
      if CHUNK_SIZE + 4 < s'.seg.acc.length then ⟨drainBuffer s'.seg, s'.nextFrameStartBytes⟩
      else s'
    else s
  ⟨{ s₁.seg with acc := s₁.seg.acc ++ [b] }, s₁.nextFrameStartBytes⟩

/-- Invariant of the segmenter's chunk list while data is arriving: every
chunk except the last has already been attached to its successor, and the
last chunk has not been attached yet. -/
def chainInv (l : List ChunkRec) : Prop :=
  (∀ c ∈ l.dropLast, c.attached = AttachState.toSuccessor) ∧
  (∀ h : l ≠ [], (l.getLast h).attached = AttachState.unattached)

/-! ## Chunk decode retry search (`Chunk` constructor) -/

/-- Outcome of one `decodeAudioData` call on the buffer starting at a
given first byte: success, failure reporting a `null` error (the Safari
behaviour the retry hack targets), or failure reporting a real error. -/
inductive DecodeOutcome where
  | success
  | failNull
  | failErr
  deriving DecidableEq, Repr

/-- Result of the whole retry search: success recording the final first
usable byte, the passed-through engine error, or the terminal
`Could not decode audio buffer` error. -/
inductive DecodeResult where
  | ok (firstByte : Nat)
  | errPassthrough
  | errCouldNotDecode
  deriving DecidableEq, Repr

/-- The forward scan of the retry loop: after bumping `_firstByte` to
`fb + 1`, scan `for (; _firstByte < raw.length - 1; _firstByte += 1)` for
the first position the adapter validates. -/
def retryScan (validate : Nat → Bool) (rawLen fb : Nat) : Option Nat :=
  (List.range' (fb + 1) (rawLen - 1 - (fb + 1))).find? validate

/-- The recursive `decode` closure of the `Chunk` constructor, as a
function of the engine's outcome at each offset (`oracle`) and the
adapter's validation (`validate`).  A `failNull` outcome advances
`_firstByte` and retries at the next validated offset; a `failErr`
outcome is passed to the error callback immediately. -/
def decodeFrom (oracle : Nat → DecodeOutcome) (validate : Nat → Bool)
    (rawLen : Nat) (fb : Nat) : DecodeResult :=
  if oracle fb = DecodeOutcome.success then DecodeResult.ok fb
  else if oracle fb = DecodeOutcome.failErr then DecodeResult.errPassthrough
  else
    match h : retryScan validate rawLen fb with
    | some j => decodeFrom oracle validate rawLen j
    | none => DecodeResult.errCouldNotDecode
termination_by rawLen - fb
decreasing_by
  have hmem := List.mem_of_find?_eq_some h
  rw [List.mem_range'_1] at hmem
  omega

/-- The stable error code attached by `drainBuffer`'s `onerror` handler. -/
def COULD_NOT_DECODE : String := "COULD_NOT_DECODE"

/-- An error surfaced through the event bus. -/
structure FiredError where
  event : String
  code : String
  url : String
  deriving DecidableEq, Repr

/-- The `onerror` handler `drainBuffer` installs on each chunk: the chunk's
decode error is fired as a `loaderror` event carrying the code
`COULD_NOT_DECODE` and the clip's url. -/
def chunkDecodeErrorEvent (url : String) : FiredError :=
  { event := "loaderror", code := COULD_NOT_DECODE, url := url }

/-! ## Buffering heuristic (`checkCanplaythrough`) -/

/-- The inputs `checkCanplaythrough` reads: the flag, `this.length`, each
chunk's (optional) duration and raw byte length, `totalLoadedBytes` and
the elapsed wall-clock time since load start. -/
structure CanPlayState where
  canplaythrough : Bool
  length : Nat
  chunks : List (Option ℚ × Nat)
  totalLoadedBytes : Nat
  elapsed : ℚ
  deriving DecidableEq, Repr

/-- The accumulation loop of `checkCanplaythrough`: walk the chunks,
stopping at the first chunk whose duration is falsy (`null` or `0`),
summing durations and raw byte lengths of the prefix. -/
def decodedRun : List (Option ℚ × Nat) → ℚ × ℚ
  | [] => (0, 0)
  | (none, _) :: _ => (0, 0)
  | (some d, len) :: rest =>
    if d = 0 then (0, 0)
    else
      let p := decodedRun rest
      (d + p.1, (len : ℚ) + p.2)

/-- `checkCanplaythrough`, returning the new state and whether the
`canplaythrough` event was fired. -/
def checkCanplaythrough (s : CanPlayState) : CanPlayState × Bool :=
  if s.canplaythrough = true ∨ s.length = 0 then (s, false)
  else
    let db := decodedRun s.chunks
    if db.1 = 0 then (s, false)
    else
      let scale : ℚ := (s.length : ℚ) / db.2
      let estimatedDuration := db.1 * scale
      let bitrate := (s.totalLoadedBytes : ℚ) / s.elapsed
      let estimatedTimeToDownload :=
        3 / 2 * ((s.length : ℚ) - (s.totalLoadedBytes : ℚ)) / bitrate / 1000
      let availableAudio := db.2 / (s.length : ℚ) * estimatedDuration
      if estimatedTimeToDownload < availableAudio then
        ({ s with canplaythrough := true }, true)
      else (s, false)

/-! ## Clip duration getter -/

/-- The `duration` getter of `Clip`: walk the chunk chain, returning
`null` at the first chunk whose duration is falsy (`null` or `0`),
otherwise the running sum. -/
def durationGetter : List (Option ℚ) → Option ℚ
  | [] => some 0
  | none :: _ => none
  | some d :: rest =>
    if d = 0 then none
    else
      match durationGetter rest with
      | none => none
      | some t => some (d + t)

/-! ## Crossfade scheduling (`advance` inside `_play`) -/

/-- The gain automation events scheduled for one buffer by `advance`:
`setValueAtTime(0, nextStart)`, `setValueAtTime(1, nextStart + OVERLAP)`,
`source.start(nextStart)` and, after `nextStart += chunk.duration`,
`setValueAtTime(0, nextStart + OVERLAP)`. -/
structure GainSched where
  startAt : ℚ
  zeroAt : ℚ
  oneAt : ℚ
  fadeOutAt : ℚ
  deriving DecidableEq, Repr

/-- The events one `advance` call schedules when `nextStart = t` on entry
and the new chunk has duration `d`. -/
def advanceSched (t d : ℚ) : GainSched :=
  { startAt := t, zeroAt := t, oneAt := t + OVERLAP, fadeOutAt := t + d + OVERLAP }

/-- Repeated `advance` calls over the chunk durations `ds`, starting with
`nextStart = t`. -/
def advanceRun (t : ℚ) : List ℚ → List GainSched
  | [] => []
  | d :: ds => advanceSched t d :: advanceRun (t + d) ds

/-- The value of `nextStart` after advancing over the durations `ds`. -/
def nextStartAfter (t : ℚ) : List ℚ → ℚ
  | [] => t
  | d :: ds => nextStartAfter (t + d) ds

/-- The initial `nextStart` computed in `_play`:
`contextTimeAtStart + (chunk.duration - timeOffset)`. -/
def playInitNextStart (contextTime d1 timeOffset : ℚ) : ℚ :=
  contextTime + (d1 - timeOffset)

/-- The fade-out event `_play` schedules for the very first buffer:
`gain.gain.setValueAtTime(0, nextStart + OVERLAP)`. -/
def playInitFadeOutAt (contextTime d1 timeOffset : ℚ) : ℚ :=
  playInitNextStart contextTime d1 timeOffset + OVERLAP

/-! ## FetchLoader progress fraction -/

/-- A JavaScript number as far as division is concerned. -/
inductive JSNumber where
  | num (q : ℚ)
  | nan
  | posInf
  | negInf
  deriving DecidableEq, Repr

/-- JavaScript division: `0 / 0` is `NaN`, `a / 0` is a signed infinity
for `a ≠ 0`. -/
def jsDiv (a b : ℚ) : JSNumber :=
  if b = 0 then
    if a = 0 then JSNumber.nan
    else if 0 < a then JSNumber.posInf
    else JSNumber.negInf
  else JSNumber.num (a / b)

/-- The progress fraction `FetchLoader.load` passes to `onprogress`:
`(total ? length : 0) / total`. -/
def fetchProgressFraction (length total : Nat) : JSNumber :=
  jsDiv (if total = 0 then 0 else (length : ℚ)) (total : ℚ)

/-! ## Concrete example states used by counterexamples and witnesses -/

/-- A chunk about to become ready, with a nonzero first usable byte and a
successor: raw bytes `[7, 8]`, first usable byte 1, successor raw bytes
`[5, 6]`. -/
def exChunk : ChunkState :=
  { raw := [7, 8], firstByte := 1, duration := some 1, attached := true,
    next := some [5, 6], ready := false, extended := none }

/-- A segmenter state whose accumulator holds 65537 bytes: more than
64 KiB, but not more than `CHUNK_SIZE + 4`. -/
def exSegOver64K : SegState := ⟨[], List.replicate 65537 0, 0⟩

/-- A segmenter state with one earlier chunk and an accumulator of 65541
bytes, which is strictly more than `CHUNK_SIZE + 4`. -/
def exSegDrain : SegState := ⟨[⟨[9], AttachState.unattached⟩], List.replicate 65541 0, 10⟩

/-- A decode engine that fails with a real (non-null) error at offset 0
and would succeed at every later offset. -/
def exOracleErr : Nat → DecodeOutcome :=
  fun n => if n = 0 then DecodeOutcome.failErr else DecodeOutcome.success

/-- An adapter that validates every offset. -/
def exValidateAll : Nat → Bool := fun _ => true

/-- A decode engine that fails with a null error at offset 0 and succeeds
at every later offset. -/
def exOracleNull : Nat → DecodeOutcome :=
  fun n => if n = 0 then DecodeOutcome.failNull else DecodeOutcome.success

/-- An adapter that validates only offset 2. -/
def exValidateTwo : Nat → Bool := fun n => decide (n = 2)

/-- A sample url. -/
def exUrl : String := "https://example.invalid/audio.mp3"

/-- A buffering state with unknown (zero) total content length. -/
def exCanPlayNoLength : CanPlayState := ⟨false, 0, [(some 1, 1)], 5, 1⟩

/-- A buffering state in which `canplaythrough` already holds. -/
def exCanPlayDone : CanPlayState := ⟨true, 10, [(some 1, 1)], 5, 1⟩

/-- A buffering state with no decoded duration yet. -/
def exCanPlayNoAudio : CanPlayState := ⟨false, 10, [(none, 2)], 5, 1⟩

/-! ## Helper lemmas about the chunk lifecycle -/

theorem sliceList_full (l : List Nat) : sliceList l 0 l.length = l := by
  simp [sliceList]

theorem extendedWithNext_eq (raw : List Nat) (fb : Nat) (nraw : List Nat)
    (h : fb ≤ raw.length) :
    extendedWithNext raw fb nraw =
      (raw.drop fb ++ nraw.take (nraw.length / 2)) ++ List.replicate fb 0 := by
  have hlen : (raw.drop fb ++ nraw.take (nraw.length / 2)).length
      = (raw.length - fb) + nraw.length / 2 := by
    have := Nat.div_le_self nraw.length 2
    simp [List.length_append, List.length_drop, List.length_take]
    omega
  show (raw.drop fb ++ nraw.take (nraw.length / 2)) ++
      (List.replicate (raw.length + nraw.length / 2) 0).drop
        (raw.drop fb ++ nraw.take (nraw.length / 2)).length
    = (raw.drop fb ++ nraw.take (nraw.length / 2)) ++ List.replicate fb 0
  rw [List.drop_replicate, hlen]
  have hz : raw.length + nraw.length / 2 - ((raw.length - fb) + nraw.length / 2) = fb := by
    omega
  rw [hz]

theorem readyStep_of_ready (s : ChunkState) (h : s.ready = true) : readyStep s = s := by
  simp [readyStep, h]

theorem readyStep_ready_mono (s : ChunkState) (h : s.ready = true) :
    (readyStep s).ready = true := by
  rw [readyStep_of_ready s h]; exact h

theorem applyOp_ready_mono (s : ChunkState) (op : ChunkOp) (h : s.ready = true) :
    (applyOp s op).ready = true := by
  cases op with
  | attach n => exact readyStep_ready_mono _ h
  | setDuration d => exact readyStep_ready_mono _ h
  | advanceFirstByte => exact h

theorem readyStep_inv (s : ChunkState)
    (hs : s.ready = true → s.attached = true ∧ s.duration.isSome = true) :
    (readyStep s).ready = true →
      (readyStep s).attached = true ∧ (readyStep s).duration.isSome = true := by
  by_cases h : s.ready = true
  · rw [readyStep_of_ready s h]; exact hs
  · unfold readyStep
    rw [if_neg h]
    by_cases hc : s.attached = true ∧ s.duration.isSome = true
    · rw [if_pos hc]; intro _; exact hc
    · rw [if_neg hc]; exact hs

theorem applyOp_inv (s : ChunkState) (op : ChunkOp)
    (hs : s.ready = true → s.attached = true ∧ s.duration.isSome = true) :
    (applyOp s op).ready = true →
      (applyOp s op).attached = true ∧ (applyOp s op).duration.isSome = true := by
  cases op with
  | attach n =>
    apply readyStep_inv
    intro h
    exact ⟨rfl, (hs h).2⟩
  | setDuration d =>
    apply readyStep_inv
    intro h
    exact ⟨(hs h).1, rfl⟩
  | advanceFirstByte => exact hs

theorem runChunk_inv (raw : List Nat) (ops : List ChunkOp) :
    (runChunk raw ops).ready = true →
      (runChunk raw ops).attached = true ∧ (runChunk raw ops).duration.isSome = true := by
  suffices h : ∀ s : ChunkState,
      (s.ready = true → s.attached = true ∧ s.duration.isSome = true) →
      ((ops.foldl applyOp s).ready = true →
        (ops.foldl applyOp s).attached = true ∧ (ops.foldl applyOp s).duration.isSome = true) by
    refine h (initChunk raw) ?_
    intro hh
    simp [initChunk] at hh
  induction ops with
  | nil => intro s hs; exact hs
  | cons op rest ih => intro s hs; exact ih _ (applyOp_inv s op hs)

theorem readyStep_raw (s : ChunkState) : (readyStep s).raw = s.raw := by
  unfold readyStep
  split
  · rfl
  · split
    · rfl
    · rfl

theorem applyOp_raw (s : ChunkState) (op : ChunkOp) : (applyOp s op).raw = s.raw := by
  cases op with
  | attach n => exact readyStep_raw _
  | setDuration d => exact readyStep_raw _
  | advanceFirstByte => rfl

theorem readyStep_extended (s : ChunkState) (raw : List Nat) (hraw : s.raw = raw)
    (hs : s.ready = true → ∃ fb nx, s.extended = some (chunkExtended raw fb nx)) :
    (readyStep s).ready = true →
      ∃ fb nx, (readyStep s).extended = some (chunkExtended raw fb nx) := by
  by_cases h : s.ready = true
  · rw [readyStep_of_ready s h]; exact hs
  · unfold readyStep
    rw [if_neg h]
    by_cases hc : s.attached = true ∧ s.duration.isSome = true
    · rw [if_pos hc]
      intro _
      exact ⟨s.firstByte, s.next, by rw [← hraw]⟩
    · rw [if_neg hc]; exact hs

theorem applyOp_extended (s : ChunkState) (op : ChunkOp) (raw : List Nat) (hraw : s.raw = raw)
    (hs : s.ready = true → ∃ fb nx, s.extended = some (chunkExtended raw fb nx)) :
    (applyOp s op).ready = true →
      ∃ fb nx, (applyOp s op).extended = some (chunkExtended raw fb nx) := by
  cases op with
  | attach n => exact readyStep_extended _ raw hraw hs
  | setDuration d => exact readyStep_extended _ raw hraw hs
  | advanceFirstByte => exact hs

theorem runChunk_raw (raw : List Nat) (ops : List ChunkOp) : (runChunk raw ops).raw = raw := by
  suffices h : ∀ s : ChunkState, s.raw = raw → (ops.foldl applyOp s).raw = raw by
    exact h (initChunk raw) rfl
  induction ops with
  | nil => intro s hs; exact hs
  | cons op rest ih =>
    intro s hs
    exact ih _ (by rw [applyOp_raw]; exact hs)

theorem runChunk_extended (raw : List Nat) (ops : List ChunkOp) :
    (runChunk raw ops).ready = true →
      ∃ fb nx, (runChunk raw ops).extended = some (chunkExtended raw fb nx) := by
  suffices h : ∀ s : ChunkState, s.raw = raw →
      (s.ready = true → ∃ fb nx, s.extended = some (chunkExtended raw fb nx)) →
      ((ops.foldl applyOp s).ready = true →
        ∃ fb nx, (ops.foldl applyOp s).extended = some (chunkExtended raw fb nx)) by
    refine h (initChunk raw) rfl ?_
    intro hh
    simp [initChunk] at hh
  induction ops with
  | nil => intro s _ hs; exact hs
  | cons op rest ih =>
    intro s hraw hs
    exact ih _ (by rw [applyOp_raw]; exact hraw) (applyOp_extended s op raw hraw hs)

/-! ## Claim C2 (stitching) -/

/-- Claim C2 as stated is false: for the chunk `exChunk` (first usable
byte 1, successor `[5, 6]`), becoming ready produces the extended buffer
`[8, 5, 0]` — its raw bytes from the first usable byte, the first
`⌊2/2⌋ = 1` successor bytes, and one additional zero byte left over from
the over-allocated output array — not only
`raw.drop 1 ++ [5, 6].take 1 = [8, 5]`. -/
theorem stitching_counterexample :
    (readyStep exChunk).extended = some [8, 5, 0] ∧
    some [8, 5, 0] ≠
      some (List.drop 1 [7, 8] ++ List.take (List.length [5, 6] / 2) [5, 6]) := by
  decide

/-- Claim C2 (amended): when a chunk becomes ready, its extended buffer is
its raw bytes from the first usable byte onward followed by the first
`⌊length(next.raw)/2⌋` bytes of the successor's raw bytes and then by
`firstByte` zero bytes of padding (the unwritten tail of the allocated
array); for a chunk with no successor, the extended buffer equals the raw
bytes from the first usable byte onward, with no padding. -/
theorem stitching_extended (s : ChunkState) (hr : s.ready = false)
    (ha : s.attached = true) (hd : s.duration.isSome = true)
    (hfb : s.firstByte ≤ s.raw.length) :
    (readyStep s).ready = true ∧
    (readyStep s).extended = some (match s.next with
      | some nraw =>
        (s.raw.drop s.firstByte ++ nraw.take (nraw.length / 2))
          ++ List.replicate s.firstByte 0
      | none => s.raw.drop s.firstByte) := by
  unfold readyStep
  rw [if_neg (by simp [hr]), if_pos ⟨ha, hd⟩]
  refine ⟨rfl, ?_⟩
  show some (chunkExtended s.raw s.firstByte s.next) = _
  cases hn : s.next with
  | none => simp [chunkExtended]
  | some nraw => simp [chunkExtended, extendedWithNext_eq s.raw s.firstByte nraw hfb]

/-- Witness for `stitching_extended` at the concrete chunk `exChunk`. -/
theorem stitching_extended_witness :
    (readyStep exChunk).ready = true ∧ (readyStep exChunk).extended = some [8, 5, 0] := by
  have h := stitching_extended exChunk (by decide) (by decide) (by decide) (by decide)
  refine ⟨h.1, ?_⟩
  rw [h.2]
  decide

/-! ## Claim C3 (readiness invariant) -/

/-- Claim C3: for every chunk reached by any sequence of operations from
construction, the ready flag is true only if `attach` has been called
(with a successor or with none) and the duration has been computed; and
readiness is monotonic — once true, no further operation unsets it. -/
theorem chunk_ready_invariant (raw : List Nat) (ops : List ChunkOp) :
    ((runChunk raw ops).ready = true →
      (runChunk raw ops).attached = true ∧ (runChunk raw ops).duration.isSome = true) ∧
    (∀ op : ChunkOp, (runChunk raw ops).ready = true →
      (applyOp (runChunk raw ops) op).ready = true) := by
  exact ⟨runChunk_inv raw ops, fun op h => applyOp_ready_mono _ op h⟩

/-- Witness for `chunk_ready_invariant`: a chunk attached (to none) whose
duration has been computed is ready, is attached with a known duration,
and stays ready across a further `attach`. -/
theorem chunk_ready_invariant_witness :
    (runChunk [1, 2] [ChunkOp.attach none, ChunkOp.setDuration 1]).attached = true ∧
    (runChunk [1, 2] [ChunkOp.attach none, ChunkOp.setDuration 1]).duration.isSome = true ∧
    (applyOp (runChunk [1, 2] [ChunkOp.attach none, ChunkOp.setDuration 1])
      (ChunkOp.attach (some [3]))).ready = true := by
  have h := chunk_ready_invariant [1, 2] [ChunkOp.attach none, ChunkOp.setDuration 1]
  exact ⟨(h.1 (by decide)).1, (h.1 (by decide)).2, h.2 (ChunkOp.attach (some [3])) (by decide)⟩

/-! ## Claim C10 (createSource guard) -/

/-- Claim C10: for any chunk reached from construction, calling
`createSource`/`createBuffer` while the ready flag is false throws (no
buffer is submitted for decoding); under the precondition that the chunk
is ready, the error branch is not taken and the buffer submitted for
decoding is exactly the stored extended buffer, which was built by the
stitching rule from the raw bytes. -/
theorem createSource_guard (raw : List Nat) (ops : List ChunkOp) :
    ((runChunk raw ops).ready = false →
      createSource (runChunk raw ops) = Except.error notReadyMsg) ∧
    ((runChunk raw ops).ready = true → ∃ fb nx,
      (runChunk raw ops).extended = some (chunkExtended raw fb nx) ∧
      createSource (runChunk raw ops) = Except.ok (chunkExtended raw fb nx)) := by
  constructor
  · intro h
    simp [createSource, h]
  · intro h
    obtain ⟨fb, nx, he⟩ := runChunk_extended raw ops h
    refine ⟨fb, nx, he, ?_⟩
    simp [createSource, h, he, sliceList_full]

/-- Witness for `createSource_guard`: a fresh chunk is not ready and
`createSource` throws; after `attach(null)` and a computed duration the
chunk is ready and `createSource` submits the extended buffer
`[3, 4]` (raw bytes from first usable byte 0, no successor). -/
theorem createSource_guard_witness :
    createSource (runChunk [3, 4] []) = Except.error notReadyMsg ∧
    createSource (runChunk [3, 4] [ChunkOp.attach none, ChunkOp.setDuration 1]) =
      Except.ok [3, 4] := by
  constructor
  · exact (createSource_guard [3, 4] []).1 (by decide)
  · obtain ⟨fb, nx, he, hc⟩ :=
      (createSource_guard [3, 4] [ChunkOp.attach none, ChunkOp.setDuration 1]).2 (by decide)
    have hext : (runChunk [3, 4] [ChunkOp.attach none, ChunkOp.setDuration 1]).extended
        = some [3, 4] := by decide
    rw [hext] at he
    have he' : chunkExtended [3, 4] fb nx = [3, 4] := by
      injection he.symm
    rw [he'] at hc
    exact hc

/-! ## Helper lemmas about the segmenter -/

theorem attachLast_length (l : List ChunkRec) : (attachLast l).length = l.length := by
  induction l with
  | nil => rfl
  | cons c rest ih =>
    cases rest with
    | nil => rfl
    | cons c' rest' => simp only [attachLast, List.length_cons] at ih ⊢; omega

theorem mem_attachLast (l : List ChunkRec)
    (h : ∀ c ∈ l.dropLast, c.attached = AttachState.toSuccessor) :
    ∀ c ∈ attachLast l, c.attached = AttachState.toSuccessor := by
  induction l with
  | nil => intro c hc; simp [attachLast] at hc
  | cons a rest ih =>
    cases rest with
    | nil =>
      intro c hc
      simp only [attachLast, List.mem_singleton] at hc
      rw [hc]
    | cons a' rest' =>
      intro c hc
      simp only [attachLast, List.mem_cons] at hc
      rcases hc with rfl | hmem
      · exact h c (by simp [List.dropLast_cons₂])
      · refine ih ?_ c hmem
        intro d hd
        exact h d (by simp only [List.dropLast_cons₂, List.mem_cons]; exact Or.inr hd)

theorem attachNullLast_concat (xs : List ChunkRec) (c : ChunkRec) :
    attachNullLast (xs ++ [c]) = xs ++ [{ c with attached := AttachState.toNull }] := by
  induction xs with
  | nil => rfl
  | cons a rest ih =>
    cases rest with
    | nil => rfl
    | cons a' rest' =>
      show a :: attachNullLast ((a' :: rest') ++ [c]) = _
      rw [ih]
      rfl

theorem ondataStep_chunks (v : Bool) (b : Nat) (s : SegState) :
    (ondataStep v b s).chunks =
      if CHUNK_SIZE + 4 < s.acc.length ∧ v = true then (drainBuffer s).chunks
      else s.chunks := by
  unfold ondataStep
  split
  · rfl
  · rfl

theorem ondataStep_acc_ne (v : Bool) (b : Nat) (s : SegState) :
    (ondataStep v b s).acc ≠ [] := by
  unfold ondataStep
  simp

theorem drainBuffer_chunks (s : SegState) :
    (drainBuffer s).chunks = attachLast s.chunks
      ++ [ChunkRec.mk (s.acc.drop (if s.chunks.isEmpty then 32 else 0)) AttachState.unattached] :=
  rfl

theorem chainInv_drain (s : SegState) (h : chainInv s.chunks) :
    chainInv (drainBuffer s).chunks := by
  constructor
  · intro c hc
    rw [drainBuffer_chunks, List.dropLast_concat] at hc
    exact mem_attachLast s.chunks h.1 c hc
  · intro hne
    simp only [drainBuffer_chunks, List.getLast_concat]

theorem chainInv_ondataStep (v : Bool) (b : Nat) (s : SegState) (h : chainInv s.chunks) :
    chainInv (ondataStep v b s).chunks := by
  rw [ondataStep_chunks]
  split
  · exact chainInv_drain s h
  · exact h

theorem foldl_chainInv {α : Type} (f : α → Bool) (g : α → Nat) :
    ∀ (l : List α) (s : SegState), chainInv s.chunks →
      chainInv ((l.foldl (fun t a => ondataStep (f a) (g a) t) s).chunks) := by
  intro l
  induction l with
  | nil => intro s h; exact h
  | cons a rest ih => intro s h; exact ih _ (chainInv_ondataStep _ _ _ h)

theorem chainInv_ondata (validate : List Nat → Nat → Bool) (piece : List Nat) (s : SegState)
    (h : chainInv s.chunks) : chainInv (ondata validate piece s).chunks := by
  unfold ondata
  exact foldl_chainInv (fun ib => validate piece ib.1) Prod.snd piece.enum s h

theorem chainInv_foldPieces (validate : List Nat → Nat → Bool) :
    ∀ (pieces : List (List Nat)) (s : SegState), chainInv s.chunks →
      chainInv ((pieces.foldl (fun t piece => ondata validate piece t) s).chunks) := by
  intro pieces
  induction pieces with
  | nil => intro s h; exact h
  | cons p ps ih => intro s h; exact ih _ (chainInv_ondata validate p s h)

theorem foldl_acc_ne {α : Type} (f : α → Bool) (g : α → Nat) :
    ∀ (l : List α) (s : SegState), l ≠ [] →
      (l.foldl (fun t a => ondataStep (f a) (g a) t) s).acc ≠ [] := by
  intro l
  induction l with
  | nil => intro s h; exact absurd rfl h
  | cons a rest ih =>
    intro s _
    cases rest with
    | nil => exact ondataStep_acc_ne (f a) (g a) s
    | cons a' rest' => exact ih _ (by simp)

theorem ondata_acc_ne (validate : List Nat → Nat → Bool) (piece : List Nat) (s : SegState)
    (h : piece ≠ [] ∨ s.acc ≠ []) : (ondata validate piece s).acc ≠ [] := by
  by_cases hp : piece = []
  · subst hp
    rw [show ondata validate [] s = s from rfl]
    exact h.resolve_left (by intro hh; exact hh rfl)
  · unfold ondata
    refine foldl_acc_ne (fun ib => validate piece ib.1) Prod.snd piece.enum s ?_
    simp [hp]

theorem pieces_acc_ne (validate : List Nat → Nat → Bool) :
    ∀ (pieces : List (List Nat)) (s : SegState), pieces.flatten ≠ [] ∨ s.acc ≠ [] →
      (pieces.foldl (fun t piece => ondata validate piece t) s).acc ≠ [] := by
  intro pieces
  induction pieces with
  | nil =>
    intro s h
    rcases h with h | h
    · exact absurd rfl h
    · exact h
  | cons p ps ih =>
    intro s h
    refine ih _ ?_
    rcases h with h | h
    · by_cases hp : p = []
      · subst hp
        left
        simpa using h
      · right
        exact ondata_acc_ne validate p s (Or.inl hp)
    · right
      exact ondata_acc_ne validate p s (Or.inr h)

theorem ondataStep2_seg_chunks (v2 : Bool) (fl b2 : Nat) (s2 : Seg2State) :
    (ondataStep2 v2 fl b2 s2).seg.chunks =
      if (s2.nextFrameStartBytes ≤ s2.seg.acc.length + s2.seg.processedBytes ∧ v2 = true)
          ∧ CHUNK_SIZE + 4 < s2.seg.acc.length then
        (drainBuffer s2.seg).chunks
      else s2.seg.chunks := by
  unfold ondataStep2
  by_cases h1 : s2.nextFrameStartBytes ≤ s2.seg.acc.length + s2.seg.processedBytes ∧ v2 = true
  · rw [if_pos h1]
    by_cases h2 : CHUNK_SIZE + 4 < s2.seg.acc.length
    · rw [if_pos h2, if_pos ⟨h1, h2⟩]
    · rw [if_neg h2, if_neg (by intro hh; exact h2 hh.2)]
  · rw [if_neg h1, if_neg (by intro hh; exact h1 hh.1)]

/-! ## Claim C1 (segmenter drain condition) -/

/-- Claim C1 as stated is false: with 65537 accumulated bytes the
accumulation exceeds 64 KiB and the adapter validates the current
position, yet no chunk is drained, because the code's drain condition is
`p > CHUNK_SIZE + 4`, not `p > CHUNK_SIZE`. -/
theorem segmenter_drain_counterexample :
    64 * 1024 < exSegOver64K.acc.length ∧
    (ondataStep true 0 exSegOver64K).chunks.length = exSegOver64K.chunks.length := by
  have hlen : exSegOver64K.acc.length = 65537 := by
    rw [show exSegOver64K.acc = List.replicate 65537 0 from rfl, List.length_replicate]
  constructor
  · rw [hlen]
    norm_num
  · have hno : ¬ (CHUNK_SIZE + 4 < exSegOver64K.acc.length ∧ true = true) := by
      intro hh
      rw [hlen] at hh
      norm_num [CHUNK_SIZE] at hh
    rw [ondataStep_chunks, if_neg hno]

/-- Claim C1 (amended): while bytes are being delivered, the accumulator
is drained into a new chunk exactly when the accumulated byte count
exceeds `CHUNK_SIZE + 4` (64 KiB plus 4 bytes) and the adapter validates a
frame boundary at the current position — in the second `Clip` variant
additionally only once the current stream position has reached the
predicted start of the next frame; on a drain the new chunk is immediately
attached as successor of the previous chunk (if any) and the accumulator
is reset to empty before the current byte is written. -/
theorem segmenter_drain_spec (v : Bool) (b : Nat) (s : SegState)
    (v2 : Bool) (fl b2 : Nat) (s2 : Seg2State) :
    ((CHUNK_SIZE + 4 < s.acc.length ∧ v = true) →
      ondataStep v b s =
        { chunks := attachLast s.chunks
            ++ [ChunkRec.mk (s.acc.drop (if s.chunks.isEmpty then 32 else 0))
                  AttachState.unattached],
          acc := [b],
          processedBytes := s.processedBytes + s.acc.length }) ∧
    (¬ (CHUNK_SIZE + 4 < s.acc.length ∧ v = true) →
      ondataStep v b s = { s with acc := s.acc ++ [b] }) ∧
    ((ondataStep v b s).chunks.length = s.chunks.length + 1 ↔
      (CHUNK_SIZE + 4 < s.acc.length ∧ v = true)) ∧
    (((s2.nextFrameStartBytes ≤ s2.seg.acc.length + s2.seg.processedBytes ∧ v2 = true)
        ∧ CHUNK_SIZE + 4 < s2.seg.acc.length) →
      (ondataStep2 v2 fl b2 s2).seg =
        { chunks := attachLast s2.seg.chunks
            ++ [ChunkRec.mk (s2.seg.acc.drop (if s2.seg.chunks.isEmpty then 32 else 0))
                  AttachState.unattached],
          acc := [b2],
          processedBytes := s2.seg.processedBytes + s2.seg.acc.length }) ∧
    ((ondataStep2 v2 fl b2 s2).seg.chunks.length = s2.seg.chunks.length + 1 ↔
      ((s2.nextFrameStartBytes ≤ s2.seg.acc.length + s2.seg.processedBytes ∧ v2 = true)
        ∧ CHUNK_SIZE + 4 < s2.seg.acc.length)) := by
  refine ⟨?_, ?_, ?_, ?_, ?_⟩
  · intro h
    unfold ondataStep
    rw [if_pos h]
    rfl
  · intro h
    unfold ondataStep
    rw [if_neg h]
  · rw [ondataStep_chunks]
    by_cases hc : CHUNK_SIZE + 4 < s.acc.length ∧ v = true
    · rw [if_pos hc, drainBuffer_chunks]
      simp [attachLast_length, hc]
    · rw [if_neg hc]
      constructor
      · intro hh
        omega
      · intro hh
        exact absurd hh hc
  · intro h
    obtain ⟨h1, h2⟩ := h
    unfold ondataStep2
    rw [if_pos h1, if_pos h2]
    rfl
  · rw [ondataStep2_seg_chunks]
    by_cases hc : (s2.nextFrameStartBytes ≤ s2.seg.acc.length + s2.seg.processedBytes ∧ v2 = true)
        ∧ CHUNK_SIZE + 4 < s2.seg.acc.length
    · rw [if_pos hc, drainBuffer_chunks]
      simp [attachLast_length, hc]
    · rw [if_neg hc]
      constructor
      · intro hh
        omega
      · intro hh
        exact absurd hh hc

/-- Witness for `segmenter_drain_spec`: a drain at an accumulator of 65541
bytes with one earlier chunk attaches the earlier chunk to the new chunk,
makes the accumulated bytes the new chunk's raw bytes, and resets the
accumulator to just the current byte, in both `Clip` variants. -/
theorem segmenter_drain_spec_witness :
    (ondataStep true 5 exSegDrain).chunks =
      [ChunkRec.mk [9] AttachState.toSuccessor,
       ChunkRec.mk (List.replicate 65541 0) AttachState.unattached] ∧
    (ondataStep true 5 exSegDrain).acc = [5] ∧
    (ondataStep2 true 400 5 ⟨exSegDrain, 0⟩).seg.acc = [5] := by
  have hlen : exSegDrain.acc.length = 65541 := by
    rw [show exSegDrain.acc = List.replicate 65541 0 from rfl, List.length_replicate]
  have hcond : CHUNK_SIZE + 4 < exSegDrain.acc.length ∧ true = true := by
    refine ⟨?_, rfl⟩
    rw [hlen]
    norm_num [CHUNK_SIZE]
  have h := segmenter_drain_spec true 5 exSegDrain true 400 5 ⟨exSegDrain, 0⟩
  have h1 := h.1 hcond
  have h4 := h.2.2.2.1 ⟨⟨Nat.zero_le _, rfl⟩, hcond.1⟩
  refine ⟨?_, ?_, ?_⟩
  · rw [h1]
    show attachLast exSegDrain.chunks
        ++ [ChunkRec.mk (exSegDrain.acc.drop (if exSegDrain.chunks.isEmpty then 32 else 0))
              AttachState.unattached] = _
    rw [show exSegDrain.chunks = [ChunkRec.mk [9] AttachState.unattached] from rfl,
      show exSegDrain.acc = List.replicate 65541 0 from rfl,
      show (if ([ChunkRec.mk [9] AttachState.unattached] : List ChunkRec).isEmpty then 32 else 0)
        = 0 from rfl,
      List.drop_zero]
    rfl
  · rw [h1]
  · rw [h4]

/-! ## Claim C8 (final chunk termination) -/

/-- Claim C8 as stated is false: a load that completes after delivering no
bytes produces no chunk at all, so `attach(null)` is called zero times,
not exactly once. -/
theorem load_final_attach_counterexample :
    (runLoad (fun _ _ => false) []).chunks = [] ∧
    (runLoad (fun _ _ => false) []).chunks.countP
      (fun c => decide (c.attached = AttachState.toNull)) = 0 := by
  decide

/-- Claim C8 (amended): for every load that runs to stream completion
having delivered at least one byte, the bytes still in the accumulator at
completion are drained as one final chunk which is explicitly attached to
no successor; every earlier chunk is attached to its successor, so
`attach(null)` is called exactly once during the load, on the final
chunk, and the accumulator ends empty. -/
theorem load_final_attach (validate : List Nat → Nat → Bool) (pieces : List (List Nat))
    (s₁ : SegState)
    (hs₁ : s₁ = pieces.foldl (fun t piece => ondata validate piece t) initSeg)
    (hne : pieces.flatten ≠ []) :
    (runLoad validate pieces).chunks
      = attachLast s₁.chunks
        ++ [ChunkRec.mk (s₁.acc.drop (if s₁.chunks.isEmpty then 32 else 0))
              AttachState.toNull] ∧
    (∀ c ∈ (runLoad validate pieces).chunks.dropLast, c.attached = AttachState.toSuccessor) ∧
    (runLoad validate pieces).chunks.countP
      (fun c => decide (c.attached = AttachState.toNull)) = 1 ∧
    (runLoad validate pieces).acc = [] := by
  have hacc : s₁.acc ≠ [] := by
    rw [hs₁]
    exact pieces_acc_ne validate pieces initSeg (Or.inl hne)
  have hinv : chainInv s₁.chunks := by
    rw [hs₁]
    refine chainInv_foldPieces validate pieces initSeg ⟨?_, ?_⟩
    · intro c hc
      simp [initSeg] at hc
    · intro hne'
      exact absurd rfl hne'
  have hlen : s₁.acc.length ≠ 0 := by
    intro hh
    exact hacc (List.length_eq_zero.mp hh)
  have hrun : runLoad validate pieces = onload s₁ := by
    rw [runLoad, hs₁]
  have hchunks : (onload s₁).chunks
      = attachLast s₁.chunks
        ++ [ChunkRec.mk (s₁.acc.drop (if s₁.chunks.isEmpty then 32 else 0))
              AttachState.toNull] := by
    unfold onload
    rw [if_pos hlen]
    show attachNullLast (drainBuffer s₁).chunks = _
    rw [drainBuffer_chunks, attachNullLast_concat]
  have haccload : (onload s₁).acc = [] := by
    unfold onload
    rw [if_pos hlen]
    rfl
  refine ⟨by rw [hrun, hchunks], ?_, ?_, by rw [hrun, haccload]⟩
  · intro c hc
    rw [hrun, hchunks, List.dropLast_concat] at hc
    exact mem_attachLast s₁.chunks hinv.1 c hc
  · rw [hrun, hchunks, List.countP_append]
    have h0 : (attachLast s₁.chunks).countP
        (fun c => decide (c.attached = AttachState.toNull)) = 0 := by
      rw [List.countP_eq_zero]
      intro c hc
      have hcs := mem_attachLast s₁.chunks hinv.1 c hc
      simp [hcs]
    rw [h0]
    rfl

/-- Witness for `load_final_attach`: a load delivering the single piece
`[1, 2, 3]` ends with exactly one chunk, attached to no successor (its raw
bytes are empty because the 32-byte header strip swallows the 3 delivered
bytes). -/
theorem load_final_attach_witness :
    (runLoad (fun _ _ => false) [[1, 2, 3]]).chunks = [ChunkRec.mk [] AttachState.toNull] ∧
    (runLoad (fun _ _ => false) [[1, 2, 3]]).chunks.countP
      (fun c => decide (c.attached = AttachState.toNull)) = 1 := by
  have h := load_final_attach (fun _ _ => false) [[1, 2, 3]]
    (SegState.mk [] [1, 2, 3] 0) (by decide) (by decide)
  obtain ⟨h1, _, h3, _⟩ := h
  constructor
  · rw [h1]
    decide
  · exact h3

/-! ## Claim C4 (crossfade scheduling) -/

theorem nextStartAfter_eq (t : ℚ) (ds : List ℚ) : nextStartAfter t ds = t + ds.sum := by
  induction ds generalizing t with
  | nil => simp [nextStartAfter]
  | cons d rest ih =>
    rw [show nextStartAfter t (d :: rest) = nextStartAfter (t + d) rest from rfl, ih,
      List.sum_cons]
    ring

theorem advanceRun_get? (t : ℚ) (ds : List ℚ) (i : Nat) (g : GainSched) (d : ℚ)
    (hg : (advanceRun t ds).get? i = some g) (hd : ds.get? i = some d) :
    g.zeroAt = g.startAt ∧ g.oneAt = g.startAt + OVERLAP ∧
    g.startAt = t + (ds.take i).sum ∧ g.fadeOutAt = g.startAt + d + OVERLAP := by
  induction ds generalizing t i with
  | nil => simp [advanceRun] at hg
  | cons d' rest ih =>
    cases i with
    | zero =>
      rw [show (advanceRun t (d' :: rest)).get? 0 = some (advanceSched t d') from rfl] at hg
      rw [show (d' :: rest).get? 0 = some d' from rfl] at hd
      injection hg with hg
      injection hd with hd
      subst hg
      subst hd
      refine ⟨rfl, rfl, by simp [advanceSched], rfl⟩
    | succ i =>
      rw [show (advanceRun t (d' :: rest)).get? (i + 1) = (advanceRun (t + d') rest).get? i
        from rfl] at hg
      rw [show (d' :: rest).get? (i + 1) = rest.get? i from rfl] at hd
      obtain ⟨hz, ho, hs, hf⟩ := ih (t + d') i hg hd
      refine ⟨hz, ho, ?_, hf⟩
      rw [hs, List.take_succ_cons, List.sum_cons]
      ring

theorem advanceRun_consecutive (t : ℚ) (ds : List ℚ) (i : Nat) (g g' : GainSched) (d : ℚ)
    (hg : (advanceRun t ds).get? i = some g)
    (hg' : (advanceRun t ds).get? (i + 1) = some g')
    (hd : ds.get? i = some d) :
    g'.startAt = g.startAt + d ∧ g.fadeOutAt = g'.startAt + OVERLAP := by
  induction ds generalizing t i with
  | nil => simp [advanceRun] at hg
  | cons d' rest ih =>
    cases i with
    | zero =>
      rw [show (advanceRun t (d' :: rest)).get? 0 = some (advanceSched t d') from rfl] at hg
      rw [show (d' :: rest).get? 0 = some d' from rfl] at hd
      rw [show (advanceRun t (d' :: rest)).get? 1 = (advanceRun (t + d') rest).get? 0
        from rfl] at hg'
      injection hg with hg
      injection hd with hd
      subst hg
      cases rest with
      | nil => simp [advanceRun] at hg'
      | cons d'' rest' =>
        rw [show (advanceRun (t + d') (d'' :: rest')).get? 0 = some (advanceSched (t + d') d'')
          from rfl] at hg'
        injection hg' with hg'
        subst hg'
        constructor
        · show t + d' = t + d
          rw [hd]
        · rfl
    | succ i =>
      rw [show (advanceRun t (d' :: rest)).get? (i + 1) = (advanceRun (t + d') rest).get? i
        from rfl] at hg
      rw [show (advanceRun t (d' :: rest)).get? (i + 1 + 1) = (advanceRun (t + d') rest).get? (i + 1)
        from rfl] at hg'
      rw [show (d' :: rest).get? (i + 1) = rest.get? i from rfl] at hd
      exact ih (t + d') i hg hg' hd

/-- Claim C4: for every run of `advance` steps over consecutive chunk
durations, each newly scheduled buffer's gain is set to 0 at its start
time and to 1 at its start plus the overlap; each buffer's gain is set to
0 at the following buffer's start plus the overlap (this also links the
initial `_play` buffer to the first advanced one); `nextStart` advances by
exactly the duration of the scheduled chunk at each step, and after N
steps `nextStart` equals the initial start plus the sum of the N
durations, with no accumulated drift. -/
theorem crossfade_schedule (t : ℚ) (ds : List ℚ) :
    nextStartAfter t ds = t + ds.sum ∧
    (∀ i g d, (advanceRun t ds).get? i = some g → ds.get? i = some d →
      g.zeroAt = g.startAt ∧ g.oneAt = g.startAt + OVERLAP ∧
      g.startAt = t + (ds.take i).sum ∧ g.fadeOutAt = g.startAt + d + OVERLAP) ∧
    (∀ i g g' d, (advanceRun t ds).get? i = some g →
      (advanceRun t ds).get? (i + 1) = some g' → ds.get? i = some d →
      g'.startAt = g.startAt + d ∧ g.fadeOutAt = g'.startAt + OVERLAP) ∧
    (∀ ct d1 off g, (advanceRun (playInitNextStart ct d1 off) ds).get? 0 = some g →
      playInitFadeOutAt ct d1 off = g.startAt + OVERLAP) := by
  refine ⟨nextStartAfter_eq t ds, ?_, ?_, ?_⟩
  · intro i g d hg hd
    exact advanceRun_get? t ds i g d hg hd
  · intro i g g' d hg hg' hd
    exact advanceRun_consecutive t ds i g g' d hg hg' hd
  · intro ct d1 off g hg
    cases ds with
    | nil => simp [advanceRun] at hg
    | cons d' rest =>
      rw [show (advanceRun (playInitNextStart ct d1 off) (d' :: rest)).get? 0
        = some (advanceSched (playInitNextStart ct d1 off) d') from rfl] at hg
      injection hg with hg
      subst hg
      rfl

/-- Witness for `crossfade_schedule` at start time 0 and durations
`[2, 3]`. -/
theorem crossfade_schedule_witness :
    nextStartAfter 0 [2, 3] = 0 + ([2, 3] : List ℚ).sum ∧
    (advanceSched 0 2).zeroAt = (advanceSched 0 2).startAt ∧
    (advanceSched 0 2).oneAt = (advanceSched 0 2).startAt + OVERLAP ∧
    (advanceSched (0 + 2) 3).startAt = (advanceSched 0 2).startAt + 2 ∧
    (advanceSched 0 2).fadeOutAt = (advanceSched (0 + 2) 3).startAt + OVERLAP := by
  have h := crossfade_schedule (0 : ℚ) [2, 3]
  have h2 := h.2.1 0 (advanceSched 0 2) 2 rfl rfl
  have h3 := h.2.2.1 0 (advanceSched 0 2) (advanceSched (0 + 2) 3) 2 rfl rfl rfl
  exact ⟨h.1, h2.1, h2.2.1, h3.1, h3.2⟩

/-! ## Claim C5 (decode retry search) -/

theorem decodeFrom_success (o : Nat → DecodeOutcome) (v : Nat → Bool) (n fb : Nat)
    (ho : o fb = DecodeOutcome.success) : decodeFrom o v n fb = DecodeResult.ok fb := by
  rw [decodeFrom.eq_def, if_pos ho]

theorem decodeFrom_err (o : Nat → DecodeOutcome) (v : Nat → Bool) (n fb : Nat)
    (ho : o fb = DecodeOutcome.failErr) :
    decodeFrom o v n fb = DecodeResult.errPassthrough := by
  rw [decodeFrom.eq_def, if_neg (by rw [ho]; intro hh; cases hh), if_pos ho]

theorem decodeFrom_exhaust (o : Nat → DecodeOutcome) (v : Nat → Bool) (n fb : Nat)
    (ho : o fb = DecodeOutcome.failNull) (hs : retryScan v n fb = none) :
    decodeFrom o v n fb = DecodeResult.errCouldNotDecode := by
  rw [decodeFrom.eq_def, if_neg (by rw [ho]; intro hh; cases hh),
    if_neg (by rw [ho]; intro hh; cases hh)]
  split
  · rename_i j' hj'
    rw [hs] at hj'
    cases hj'
  · rfl

theorem decodeFrom_retry (o : Nat → DecodeOutcome) (v : Nat → Bool) (n fb j : Nat)
    (ho : o fb = DecodeOutcome.failNull) (hs : retryScan v n fb = some j) :
    decodeFrom o v n fb = decodeFrom o v n j := by
  rw [decodeFrom.eq_def, if_neg (by rw [ho]; intro hh; cases hh),
    if_neg (by rw [ho]; intro hh; cases hh)]
  split
  · rename_i j' hj'
    rw [hs] at hj'
    injection hj' with hj'
    rw [hj']
  · rename_i hnone
    rw [hs] at hnone
    cases hnone

theorem decodeFrom_forward (o : Nat → DecodeOutcome) (v : Nat → Bool) (n : Nat) :
    ∀ fb j, decodeFrom o v n fb = DecodeResult.ok j → j = fb ∨ (fb < j ∧ v j = true) := by
  intro fb
  induction fb using decodeFrom.induct o v n with
  | case1 fb heq =>
    intro j h
    rw [decodeFrom_success o v n fb heq] at h
    injection h with h
    exact Or.inl h.symm
  | case2 fb hne heq =>
    intro j h
    rw [decodeFrom_err o v n fb heq] at h
    cases h
  | case3 fb hne hne2 j' hscan ih =>
    intro j h
    have ho : o fb = DecodeOutcome.failNull := by
      cases hof : o fb
      · exact absurd hof hne
      · rfl
      · exact absurd hof hne2
    rw [decodeFrom_retry o v n fb j' ho hscan] at h
    have hj' := List.mem_of_find?_eq_some hscan
    rw [List.mem_range'_1] at hj'
    have hv := List.find?_some hscan
    rcases ih j h with rfl | ⟨hlt, hvv⟩
    · exact Or.inr ⟨by omega, hv⟩
    · exact Or.inr ⟨by omega, hvv⟩
  | case4 fb hne hne2 hscan =>
    intro j h
    have ho : o fb = DecodeOutcome.failNull := by
      cases hof : o fb
      · exact absurd hof hne
      · rfl
      · exact absurd hof hne2
    rw [decodeFrom_exhaust o v n fb ho hscan] at h
    cases h

/-- Claim C5 as stated is false: when the decode engine reports a real
(non-null) error at the initial offset, the retry search reports failure
immediately — the first usable byte is never advanced — even though the
adapter validates offset 1 and decoding at offset 1 would succeed.  The
claim's forward scan to the end of the segment does not happen. -/
theorem decode_retry_counterexample :
    decodeFrom exOracleErr exValidateAll 4 0 = DecodeResult.errPassthrough ∧
    exValidateAll 1 = true ∧
    decodeFrom exOracleErr exValidateAll 4 1 = DecodeResult.ok 1 := by
  refine ⟨decodeFrom_err exOracleErr exValidateAll 4 0 (by decide), rfl,
    decodeFrom_success exOracleErr exValidateAll 4 1 (by decide)⟩

/-- Claim C5 (amended): when decoding fails reporting a null error (the
engine quirk the retry hack targets), the first-usable-byte offset is
advanced and decoding is retried only at byte offsets the adapter
confirms are valid frame starts, scanning strictly forward and strictly
inside the segment; if no such offset remains, decoding fails permanently
for the chunk and its error callback fires, which the clip surfaces as a
`loaderror` with code `COULD_NOT_DECODE`; a decode failure that reports a
non-null error aborts the search immediately (also surfaced through the
same error callback) without advancing the offset.  Any successful decode
lands on the original offset or on a validated strictly-later one. -/
theorem decode_retry_search (o : Nat → DecodeOutcome) (v : Nat → Bool)
    (n fb j : Nat) (url : String) :
    (decodeFrom o v n fb = DecodeResult.ok j → j = fb ∨ (fb < j ∧ v j = true)) ∧
    (o fb = DecodeOutcome.failErr → decodeFrom o v n fb = DecodeResult.errPassthrough) ∧
    (o fb = DecodeOutcome.failNull → retryScan v n fb = none →
      decodeFrom o v n fb = DecodeResult.errCouldNotDecode) ∧
    (o fb = DecodeOutcome.failNull → retryScan v n fb = some j →
      decodeFrom o v n fb = decodeFrom o v n j ∧ fb < j ∧ v j = true ∧ j + 1 < n) ∧
    ((chunkDecodeErrorEvent url).event = "loaderror" ∧
      (chunkDecodeErrorEvent url).code = COULD_NOT_DECODE) := by
  refine ⟨decodeFrom_forward o v n fb j, decodeFrom_err o v n fb, decodeFrom_exhaust o v n fb, ?_, rfl, rfl⟩
  intro ho hs
  have hmem := List.mem_of_find?_eq_some hs
  rw [List.mem_range'_1] at hmem
  have hv := List.find?_some hs
  exact ⟨decodeFrom_retry o v n fb j ho hs, by omega, hv, by omega⟩

/-- Witness for `decode_retry_search`: with a null-error failure at offset
0 and an adapter validating only offset 2, the search retries exactly at
offset 2, strictly forward and inside the segment. -/
theorem decode_retry_search_witness :
    decodeFrom exOracleNull exValidateTwo 4 0 = decodeFrom exOracleNull exValidateTwo 4 2 ∧
    0 < 2 ∧ exValidateTwo 2 = true ∧ 2 + 1 < 4 ∧
    (chunkDecodeErrorEvent exUrl).code = COULD_NOT_DECODE := by
  have h := decode_retry_search exOracleNull exValidateTwo 4 0 2 exUrl
  have h4 := h.2.2.2.1 (by decide) (by decide)
  exact ⟨h4.1, h4.2.1, h4.2.2.1, h4.2.2.2, h.2.2.2.2.2⟩

/-! ## Claim C6 (buffering heuristic guard and permanence) -/

theorem decodedRun_zero (l : List (Option ℚ × Nat))
    (hn : ∀ p ∈ l, ∀ d : ℚ, p.1 = some d → 0 ≤ d)
    (hsum : (l.map (fun p => p.1.getD 0)).sum = 0) :
    (decodedRun l).1 = 0 := by
  cases l with
  | nil => rfl
  | cons p rest =>
    obtain ⟨d?, len⟩ := p
    cases d? with
    | none => rfl
    | some d =>
      have hd0 : d = 0 := by
        have hdn : 0 ≤ d := hn (some d, len) (by simp) d rfl
        have hrest : 0 ≤ (rest.map (fun p => p.1.getD 0)).sum := by
          apply List.sum_nonneg
          intro a ha
          obtain ⟨q, hq, rfl⟩ := List.mem_map.mp ha
          cases hq1 : q.1 with
          | none => simp [hq1]
          | some d' =>
            simp only [hq1, Option.getD_some]
            exact hn q (List.mem_cons_of_mem _ hq) d' hq1
        rw [List.map_cons, List.sum_cons, Option.getD_some] at hsum
        linarith
      simp [decodedRun, hd0]

/-- Claim C6: the `canplaythrough` evaluation never sets the flag or fires
the event when the total content length is zero/unknown, or when the sum
of the known (necessarily nonnegative) chunk durations is zero; and once
`canplaythrough` is true, re-evaluating returns the state unchanged and
fires nothing. -/
theorem canplaythrough_guard (s : CanPlayState) :
    (s.length = 0 → checkCanplaythrough s = (s, false)) ∧
    (s.canplaythrough = true → checkCanplaythrough s = (s, false)) ∧
    ((∀ p ∈ s.chunks, ∀ d : ℚ, p.1 = some d → 0 ≤ d) →
      (s.chunks.map (fun p => p.1.getD 0)).sum = 0 →
      checkCanplaythrough s = (s, false)) := by
  refine ⟨?_, ?_, ?_⟩
  · intro h
    unfold checkCanplaythrough
    rw [if_pos (Or.inr h)]
  · intro h
    unfold checkCanplaythrough
    rw [if_pos (Or.inl h)]
  · intro hn hsum
    by_cases hguard : s.canplaythrough = true ∨ s.length = 0
    · unfold checkCanplaythrough
      rw [if_pos hguard]
    · have hz := decodedRun_zero s.chunks hn hsum
      simp only [checkCanplaythrough]
      rw [if_neg hguard, if_pos hz]

/-- Witness for `canplaythrough_guard` at three concrete buffering
states: unknown length, already-true flag, and zero decoded duration. -/
theorem canplaythrough_guard_witness :
    checkCanplaythrough exCanPlayNoLength = (exCanPlayNoLength, false) ∧
    checkCanplaythrough exCanPlayDone = (exCanPlayDone, false) ∧
    checkCanplaythrough exCanPlayNoAudio = (exCanPlayNoAudio, false) := by
  refine ⟨(canplaythrough_guard exCanPlayNoLength).1 rfl,
    (canplaythrough_guard exCanPlayDone).2.1 rfl, ?_⟩
  refine (canplaythrough_guard exCanPlayNoAudio).2.2 ?_ ?_
  · intro p hp d hd
    simp [exCanPlayNoAudio] at hp
    rw [hp] at hd
    cases hd
  · norm_num [exCanPlayNoAudio]

/-! ## Claim C7 (clip duration getter) -/

theorem durationGetter_break (ds : List (Option ℚ)) :
    (∃ x ∈ ds, x = none ∨ x = some 0) → durationGetter ds = none := by
  induction ds with
  | nil =>
    intro ⟨x, hx, _⟩
    cases hx
  | cons a rest ih =>
    intro ⟨x, hx, hxc⟩
    rcases List.mem_cons.mp hx with rfl | hmem
    · rcases hxc with rfl | rfl
      · rfl
      · simp [durationGetter]
    · cases a with
      | none => rfl
      | some d =>
        by_cases hd : d = 0
        · simp [durationGetter, hd]
        · simp [durationGetter, hd, ih ⟨x, hmem, hxc⟩]

theorem durationGetter_sum (ds : List (Option ℚ))
    (h : ∀ x ∈ ds, ∃ d : ℚ, x = some d ∧ d ≠ 0) :
    durationGetter ds = some ((ds.map (fun x => x.getD 0)).sum) := by
  induction ds with
  | nil => simp [durationGetter]
  | cons a rest ih =>
    obtain ⟨d, rfl, hd⟩ := h a (by simp)
    have hrest := ih (fun x hx => h x (List.mem_cons_of_mem _ hx))
    simp [durationGetter, hd, hrest]

/-- Claim C7 as stated is false: for a chain whose single chunk has the
known duration 0, every chunk's duration is known, yet the getter returns
`none` instead of the sum 0, because the code breaks on any falsy
duration (`null` or `0`). -/
theorem clip_duration_counterexample :
    durationGetter [some 0] = none ∧
    (∀ x ∈ ([some 0] : List (Option ℚ)), x.isSome = true) ∧
    none ≠ some ((([some 0] : List (Option ℚ)).map (fun x => x.getD 0)).sum) := by
  decide

/-- Claim C7 (amended): the duration getter returns `none` whenever any
chunk's duration is unknown, and also whenever any chunk's known duration
is zero; when every chunk's duration is known and nonzero it returns
exactly the sum of all chunk durations. -/
theorem clip_duration_spec (ds : List (Option ℚ)) :
    ((∃ x ∈ ds, x = none) → durationGetter ds = none) ∧
    ((∀ x ∈ ds, ∃ d : ℚ, x = some d ∧ d ≠ 0) →
      durationGetter ds = some ((ds.map (fun x => x.getD 0)).sum)) ∧
    ((∃ x ∈ ds, x = some 0) → durationGetter ds = none) := by
  refine ⟨?_, durationGetter_sum ds, ?_⟩
  · intro ⟨x, hx, hxn⟩
    exact durationGetter_break ds ⟨x, hx, Or.inl hxn⟩
  · intro ⟨x, hx, hx0⟩
    exact durationGetter_break ds ⟨x, hx, Or.inr hx0⟩

/-- Witness for `clip_duration_spec`: a fully decoded chain `[2, 3]` has
duration 5, and a chain with an unknown duration has none. -/
theorem clip_duration_spec_witness :
    durationGetter [some 2, some 3] = some 5 ∧ durationGetter [none] = none := by
  constructor
  · have h := (clip_duration_spec [some 2, some 3]).2.1 ?_
    · rw [h]
      norm_num
    · intro x hx
      rcases List.mem_cons.mp hx with rfl | hx'
      · exact ⟨2, rfl, by norm_num⟩
      · rcases List.mem_cons.mp hx' with rfl | hx''
        · exact ⟨3, rfl, by norm_num⟩
        · cases hx''
  · exact (clip_duration_spec [none]).1 ⟨none, by simp, rfl⟩

/-! ## Claim C9 (FetchLoader progress fraction) -/

/-- Claim C9 finds a code bug: when the total content length is unknown
(0), `FetchLoader.load` computes `(total ? length : 0) / total = 0 / 0`,
which in JavaScript is `NaN`, not the 0 the guard ternary intends; the
fraction passed to `onprogress` is therefore `NaN`, not 0. -/
theorem progress_fraction_nan :
    fetchProgressFraction 0 0 = JSNumber.nan ∧
    fetchProgressFraction 100 0 = JSNumber.nan ∧
    JSNumber.nan ≠ JSNumber.num 0 := by
  decide
